import Mathlib

/-!
Verification of the LLM completion gateway in `crates/collab/src/llm.rs` and
the client-side completion retry logic in
`crates/language_model/src/provider/cloud.rs`, as a shallow embedding in Lean.

Conventions of the embedding:
* Rust `usize`/`u32`/`i64` counters become `Nat` (all counting here is
  non-negative and never overflows in the modelled reasoning).
* Byte buffers (`Vec<u8>`) become `List Nat`; `b'\n'` is the byte `10`.
* Database calls become explicit function-valued fields of a record, so
  `check_usage_limit` is a pure function of the database snapshot it reads.
* Fallible Rust code (`Result`) becomes `Except`.
-/

/-- The closed provider set, from `rpc::LanguageModelProvider`
(the variants used in `llm.rs`). -/
inductive LanguageModelProvider where
  | Anthropic
  | OpenAi
  | Google
  | Zed
deriving DecidableEq, Repr

/-- Subscription plan carried in the token claims (`rpc::proto::Plan`). -/
inductive Plan where
  | Free
  | ZedPro
deriving DecidableEq, Repr

/-- The token claims used by `llm.rs`: user identity plus staff flag and plan.
Only the fields the gateway reads are modelled. -/
structure LlmTokenClaims where
  user_id : Nat
  is_staff : Bool
  plan : Plan
deriving DecidableEq, Repr

/-- An HTTP-style error as produced by `Error::http(status, message)`. -/
structure HttpError where
  status : Nat
  message : String
deriving DecidableEq, Repr

/-- Rate caps of a model row (`db::model` result) as read by
`check_usage_limit`. -/
structure ModelRateLimits where
  max_requests_per_minute : Nat
  max_tokens_per_minute : Nat
  max_tokens_per_day : Nat
deriving DecidableEq, Repr

/-- The usage row read by `check_usage_limit` (`db::get_usage` result). -/
structure Usage where
  requests_this_minute : Nat
  tokens_this_minute : Nat
  tokens_this_day : Nat
deriving DecidableEq, Repr

/-- Active-user snapshot (`db::ActiveUserCount`). -/
structure ActiveUserCount where
  users_in_recent_minutes : Nat
  users_in_recent_days : Nat
deriving DecidableEq, Repr

/-- The slice of the LLM database consulted by `check_usage_limit`:
`db.model`, `db.get_usage` and the active-user count obtained through
`LlmState::get_active_user_count`.  Each is modelled as the value the
corresponding call returns during this request. -/
structure LlmDb where
  model : LanguageModelProvider → String → Except HttpError ModelRateLimits
  get_usage : Nat → LanguageModelProvider → String → Usage
  active_user_count : ActiveUserCount

instance {ε α : Type _} [DecidableEq ε] [DecidableEq α] :
    DecidableEq (Except ε α) := fun a b =>
  match a, b with
  | .ok x, .ok y =>
    match decEq x y with
    | .isTrue h => .isTrue (h ▸ rfl)
    | .isFalse h => .isFalse fun hc => h (Except.ok.inj hc)
  | .error x, .error y =>
    match decEq x y with
    | .isTrue h => .isTrue (h ▸ rfl)
    | .isFalse h => .isFalse fun hc => h (Except.error.inj hc)
  | .ok _, .error _ => .isFalse fun hc => Except.noConfusion hc
  | .error _, .ok _ => .isFalse fun hc => Except.noConfusion hc

/-- The known model-name stems per provider, verbatim from
`normalize_model_name` in `llm.rs`. -/
def knownModelStems : LanguageModelProvider → List String
  | .Anthropic =>
    ["claude-3-5-sonnet", "claude-3-haiku", "claude-3-opus", "claude-3-sonnet"]
  | .OpenAi =>
    ["gpt-3.5-turbo", "gpt-4-turbo-preview", "gpt-4o-mini", "gpt-4o", "gpt-4"]
  | .Google => []
  | .Zed => []

/-- Rust `str::starts_with`: `strStartsWith s p` is true when `p` is a
prefix of `s` (strings modelled through their character lists). -/
def strStartsWith (s p : String) : Bool :=
  p.data.isPrefixOf s.data

/-- Dropping the first `n` characters of a string (the ASCII case of Rust
`str::strip_prefix` once the prefix is known to match). -/
def strDropChars (s : String) (n : Nat) : String :=
  ⟨s.data.drop n⟩

/-- Rust's `Iterator::max_by_key` on string length: returns the last element
of maximal length (ties keep the later element), `none` on an empty list. -/
def maxByLen : List String → Option String
  | [] => none
  | p :: ps =>
    match maxByLen ps with
    | none => some p
    | some q => if p.length > q.length then some p else some q

/-- `normalize_model_name` from `llm.rs`: keep the longest known stem that is
a prefix of the client-supplied name, otherwise pass the raw name through. -/
def normalize_model_name (provider : LanguageModelProvider) (name : String) :
    String :=
  match maxByLen ((knownModelStems provider).filter
      (fun p => strStartsWith name p)) with
  | some p => p
  | none => name

/-- The per-resource check loop body of `check_usage_limit`: each entry is
(usage, per-user limit, resource label); staff skip every comparison. -/
def runUsageChecks (is_staff : Bool) :
    List (Nat × Nat × String) → Except HttpError Unit
  | [] => .ok ()
  | (usage, limit, resource) :: rest =>
    if is_staff then
      runUsageChecks is_staff rest
    else if usage > limit then
      .error ⟨429, "Rate limit exceeded. Maximum " ++ resource ++ " reached."⟩
    else
      runUsageChecks is_staff rest

/-- `check_usage_limit` from `llm.rs`: resolve the model row, read the usage
row and the active-user snapshot, derive per-user limits by integer division
with the divisor clamped to at least 1, then run the three checks. -/
def check_usage_limit (db : LlmDb) (provider : LanguageModelProvider)
    (model_name : String) (claims : LlmTokenClaims) : Except HttpError Unit :=
  match db.model provider model_name with
  | .error e => .error e
  | .ok model =>
  let usage := db.get_usage claims.user_id provider model_name
  let active_users := db.active_user_count

  let per_user_max_requests_per_minute :=
    model.max_requests_per_minute / max active_users.users_in_recent_minutes 1
  let per_user_max_tokens_per_minute :=
    model.max_tokens_per_minute / max active_users.users_in_recent_minutes 1
  let per_user_max_tokens_per_day :=
    model.max_tokens_per_day / max active_users.users_in_recent_days 1

  runUsageChecks claims.is_staff
    [(usage.requests_this_minute, per_user_max_requests_per_minute,
      "requests per minute"),
     (usage.tokens_this_minute, per_user_max_tokens_per_minute,
      "tokens per minute"),
     (usage.tokens_this_day, per_user_max_tokens_per_day,
      "tokens per day")]

/-- One item of the inner adapter stream feeding `TokenCountingStream`:
either serialized chunk bytes with the (input, output) token deltas the
adapter extracted, or a mid-stream error. -/
abbrev AdapterFrame := Except String (List Nat × Nat × Nat)

/-- The fields of `TokenCountingStream` that the stream logic touches
(the shared `LlmState` handle is dropped; its database is modelled where the
recorded call is interpreted). -/
structure TokenCountingStream where
  claims : LlmTokenClaims
  provider : LanguageModelProvider
  model : String
  input_tokens : Nat
  output_tokens : Nat
deriving DecidableEq, Repr

/-- The stream as constructed in `perform_completion`: both running totals
start at 0. -/
def mkTokenCountingStream (claims : LlmTokenClaims)
    (provider : LanguageModelProvider) (model : String) : TokenCountingStream :=
  { claims := claims, provider := provider, model := model,
    input_tokens := 0, output_tokens := 0 }

/-- One `Ready(Some(_))` step of `TokenCountingStream::poll_next`: an `Ok`
frame gets the newline byte appended and its deltas added to the totals; an
`Err` frame passes through unchanged and leaves the totals unchanged. -/
def pollFrame (s : TokenCountingStream) (frame : AdapterFrame) :
    TokenCountingStream × Except String (List Nat) :=
  match frame with
  | .ok (bytes, input_tokens, output_tokens) =>
    ({ s with input_tokens := s.input_tokens + input_tokens,
              output_tokens := s.output_tokens + output_tokens },
     .ok (bytes ++ [10]))
  | .error e => (s, .error e)

/-- Driving `poll_next` over the frames the adapter yields before the stream
terminates (normal end, or client disconnect after a prefix): returns the
final stream state and the items yielded to the HTTP body, in order. -/
def runStream (s : TokenCountingStream) :
    List AdapterFrame → TokenCountingStream × List (Except String (List Nat))
  | [] => (s, [])
  | f :: fs =>
    let (s1, out) := pollFrame s f
    let (s2, outs) := runStream s1 fs
    (s2, out :: outs)

/-- A `record_usage` call as spawned by `Drop for TokenCountingStream`. -/
structure UsageRecordCall where
  user_id : Nat
  provider : LanguageModelProvider
  model : String
  input_tokens : Nat
  output_tokens : Nat
deriving DecidableEq, Repr

/-- `Drop for TokenCountingStream`: destruction of the stream spawns exactly
one detached `record_usage` call carrying the accumulated totals. -/
def TokenCountingStream.dropCalls (s : TokenCountingStream) :
    List UsageRecordCall :=
  [{ user_id := s.claims.user_id, provider := s.provider, model := s.model,
     input_tokens := s.input_tokens, output_tokens := s.output_tokens }]

/-- Sum of the input-token deltas of the `Ok` frames, in yield order. -/
def sumInputDeltas : List AdapterFrame → Nat
  | [] => 0
  | .ok (_, i, _) :: fs => i + sumInputDeltas fs
  | .error _ :: fs => sumInputDeltas fs

/-- Sum of the output-token deltas of the `Ok` frames, in yield order. -/
def sumOutputDeltas : List AdapterFrame → Nat
  | [] => 0
  | .ok (_, _, o) :: fs => o + sumOutputDeltas fs
  | .error _ :: fs => sumOutputDeltas fs

/-- Splitting a byte sequence at every newline byte (10), separator
semantics: `splitAtNewlines [65, 10] = [[65], []]`. -/
def splitAtNewlines : List Nat → List (List Nat)
  | [] => [[]]
  | b :: rest =>
    if b = 10 then
      [] :: splitAtNewlines rest
    else
      match splitAtNewlines rest with
      | [] => [[b]]
      | seg :: segs => (b :: seg) :: segs

/-- The newline-delimited lines of a byte stream: split at every newline
byte, discarding the empty remainder after the final newline. -/
def wireLines (l : List Nat) : List (List Nat) :=
  let segs := splitAtNewlines l
  match segs.getLast? with
  | some [] => segs.dropLast
  | _ => segs

/-- Result of validating a bearer token (`LlmTokenClaims::validate` in
`token.rs`, not part of the analysed sources). Modelled from the spec: the
codec distinguishes `Expired` from every other failure, tagged `Invalid`
here with a reason string. -/
inductive ValidateLlmTokenError where
  | Expired
  | Invalid (reason : String)
deriving DecidableEq, Repr

/-- Modelled from the spec: `rpc::EXPIRED_LLM_TOKEN_HEADER_NAME`, the fixed
header name signalling token expiry (the `rpc` crate is not part of the
analysed sources). -/
def EXPIRED_LLM_TOKEN_HEADER_NAME : String := "x-zed-llm-token-expired"

/-- What the `validate_api_token` middleware does with a request: pass it on
to the handler with the validated claims attached, or answer with an HTTP
error status carrying extra headers. -/
inductive MiddlewareResult where
  | proceed (claims : LlmTokenClaims)
  | reject (status : Nat) (message : String) (headers : List (String × String))
deriving DecidableEq, Repr

/-- The `validate_api_token` middleware from `llm.rs`.  `authorization` is
the request's Authorization header as a string, `none` when the header is
missing or not valid text.  `validate` is `LlmTokenClaims::validate`
partially applied to the server config. -/
def validate_api_token
    (validate : String → Except ValidateLlmTokenError LlmTokenClaims)
    (authorization : Option String) : MiddlewareResult :=
  match authorization with
  | none => .reject 400 "missing authorization header" []
  | some header =>
    if strStartsWith header "Bearer " then
      match validate (strDropChars header "Bearer ".length) with
      | .ok claims => .proceed claims
      | .error .Expired =>
        .reject 401 "unauthorized" [(EXPIRED_LLM_TOKEN_HEADER_NAME, "true")]
      | .error (.Invalid _) => .reject 401 "unauthorized" []
    else
      .reject 400 "invalid authorization header" []

/-- An upstream HTTP response as inspected by the client retry loop: its
status code and whether the expired-token header is present
(`response.headers().get(EXPIRED_LLM_TOKEN_HEADER_NAME).is_some()`). -/
structure GatewayResponse where
  status : Nat
  has_expired_header : Bool
deriving DecidableEq, Repr

/-- `StatusCode::is_success`: 2xx. -/
def isSuccessStatus (status : Nat) : Bool :=
  200 ≤ status && status ≤ 299

/-- The environment of one `CloudLanguageModel::perform_llm_completion`
call: the token `LlmApiToken::acquire` yields, the token a
`LlmApiToken::refresh` would yield, and the gateway's response as a function
of the bearer token sent. -/
structure ClientEnv where
  acquired : String
  refreshed : String
  send : String → GatewayResponse

/-- Trace of one `perform_llm_completion` call: the final outcome, the
bearer tokens of the requests actually sent (in order), and how many times
`refresh` was called. -/
structure CompletionTrace where
  result : Except Nat GatewayResponse
  sent : List String
  refreshes : Nat
deriving Repr

/-- The loop body of `perform_llm_completion` once `did_retry` is true: a
non-success response breaks out with its status (even when it carries the
expired header, because `!did_retry` fails). -/
def retriedAttempt (env : ClientEnv) (token : String) : CompletionTrace :=
  let response := env.send token
  if isSuccessStatus response.status then
    { result := .ok response, sent := [token], refreshes := 0 }
  else
    { result := .error response.status, sent := [token], refreshes := 0 }

/-- The retry loop of `perform_llm_completion`, unrolled on the `did_retry`
flag (the loop body runs at most twice because `did_retry` is set before
the only path that goes round again).  On a non-success response with the
expired header and `did_retry` still false, refresh and run the second
attempt; otherwise a non-success response aborts with its status. -/
def completionAttempts (env : ClientEnv) : Bool → String → CompletionTrace
  | true, token => retriedAttempt env token
  | false, token =>
    let response := env.send token
    if isSuccessStatus response.status then
      { result := .ok response, sent := [token], refreshes := 0 }
    else if response.has_expired_header then
      let rest := retriedAttempt env env.refreshed
      { result := rest.result, sent := token :: rest.sent,
        refreshes := rest.refreshes + 1 }
    else
      { result := .error response.status, sent := [token], refreshes := 0 }

/-- `perform_llm_completion` from `cloud.rs`: acquire a token and run the
send/refresh loop with `did_retry` initially false. -/
def perform_llm_completion (env : ClientEnv) : CompletionTrace :=
  completionAttempts env false env.acquired

/-- The cache TTL, `ACTIVE_USER_COUNT_CACHE_DURATION` (seconds). -/
def ACTIVE_USER_COUNT_CACHE_DURATION : Nat := 30

/-- One sequential call of `LlmState::get_active_user_count` (time in
seconds as `Nat`; the stored timestamp never exceeds `now` in a run).
`dbCount` is what `db.get_active_user_count(now)` would return.  Returns the
cache after the call, the returned count, and whether the database was
consulted (a recomputation happened). -/
def get_active_user_count (dbCount : ActiveUserCount) (now : Nat)
    (cache : Option (Nat × ActiveUserCount)) :
    Option (Nat × ActiveUserCount) × ActiveUserCount × Bool :=
  match cache with
  | some (last_updated, count) =>
    if now - last_updated < ACTIVE_USER_COUNT_CACHE_DURATION then
      (some (last_updated, count), count, false)
    else
      (some (now, dbCount), dbCount, true)
  | none => (some (now, dbCount), dbCount, true)

/-- Where a concurrent caller of `get_active_user_count` is in its call.
The call body splits at the `await` boundary between releasing the read
guard and acquiring the write lock. -/
inductive CachePc where
  | idle
  | wantWrite
  | finished
deriving DecidableEq, Repr

/-- State of a two-task interleaved execution of
`LlmState::get_active_user_count`: the shared cache, each task's position,
and the times at which a recomputation (a `db.get_active_user_count` call)
was performed. -/
structure CacheRun where
  cache : Option (Nat × ActiveUserCount)
  pc1 : CachePc
  pc2 : CachePc
  recomputeTimes : List Nat
deriving DecidableEq, Repr

/-- An atomic step of the interleaved execution: a task runs its read-locked
freshness check, or a task holding the write lock recomputes and stores.
Steps of a task not at the matching position do nothing.  The write lock
serializes `writeRecompute` steps, which an interleaving of atomic steps
captures; the source acquires the write lock without re-checking freshness,
which is why `writeRecompute` recomputes unconditionally. -/
inductive CacheStep where
  | readCheck (firstTask : Bool)
  | writeRecompute (firstTask : Bool)
deriving DecidableEq, Repr

/-- The freshness check under the read lock: return the cached count if the
snapshot is younger than the TTL, otherwise proceed to the write path. -/
def readCheckPc (now : Nat) (cache : Option (Nat × ActiveUserCount)) :
    CachePc :=
  match cache with
  | some (last_updated, _) =>
    if now - last_updated < ACTIVE_USER_COUNT_CACHE_DURATION then .finished
    else .wantWrite
  | none => .wantWrite

/-- Apply one atomic step.  `now1`, `now2` are the `Utc::now()` values each
task captured on entry; `dbCount` is what the database reports (taken equal
for both tasks): a recomputation by a task stores `(now, dbCount)`. -/
def cacheStep (dbCount : ActiveUserCount) (now1 now2 : Nat) (st : CacheRun) :
    CacheStep → CacheRun
  | .readCheck true =>
    match st.pc1 with
    | .idle => { st with pc1 := readCheckPc now1 st.cache }
    | _ => st
  | .readCheck false =>
    match st.pc2 with
    | .idle => { st with pc2 := readCheckPc now2 st.cache }
    | _ => st
  | .writeRecompute true =>
    match st.pc1 with
    | .wantWrite =>
      { st with cache := some (now1, dbCount), pc1 := .finished,
                recomputeTimes := st.recomputeTimes ++ [now1] }
    | _ => st
  | .writeRecompute false =>
    match st.pc2 with
    | .wantWrite =>
      { st with cache := some (now2, dbCount), pc2 := .finished,
                recomputeTimes := st.recomputeTimes ++ [now2] }
    | _ => st

/-- Run a schedule (a list of atomic steps chosen by the scheduler). -/
def runCacheSched (dbCount : ActiveUserCount) (now1 now2 : Nat)
    (st : CacheRun) (sched : List CacheStep) : CacheRun :=
  sched.foldl (cacheStep dbCount now1 now2) st

/-- A two-task run starting with both callers about to do their freshness
check against the cache `cache0`. -/
def initCacheRun (cache0 : Option (Nat × ActiveUserCount)) : CacheRun :=
  { cache := cache0, pc1 := .idle, pc2 := .idle, recomputeTimes := [] }

theorem maxByLen_eq_none {l : List String} (h : maxByLen l = none) : l = [] := by
  cases l with
  | nil => rfl
  | cons p ps =>
    exfalso
    simp only [maxByLen] at h
    cases hps : maxByLen ps with
    | none => rw [hps] at h; exact Option.noConfusion h
    | some q =>
      simp only [hps] at h
      by_cases hlen : p.length > q.length
      · rw [if_pos hlen] at h; exact Option.noConfusion h
      · rw [if_neg hlen] at h; exact Option.noConfusion h

theorem maxByLen_mem {l : List String} :
    ∀ {m : String}, maxByLen l = some m → m ∈ l := by
  induction l with
  | nil => intro m h; exact absurd h (by simp [maxByLen])
  | cons p ps ih =>
    intro m h
    simp only [maxByLen] at h
    cases hps : maxByLen ps with
    | none =>
      simp only [hps] at h
      injection h with h
      subst h
      exact List.mem_cons_self p ps
    | some q =>
      simp only [hps] at h
      by_cases hlen : p.length > q.length
      · rw [if_pos hlen] at h
        injection h with h
        subst h
        exact List.mem_cons_self p ps
      · rw [if_neg hlen] at h
        injection h with h
        subst h
        exact List.mem_cons_of_mem p (ih hps)

theorem maxByLen_le {l : List String} :
    ∀ {m : String}, maxByLen l = some m → ∀ x ∈ l, x.length ≤ m.length := by
  induction l with
  | nil => intro m h x hx; exact absurd hx (List.not_mem_nil x)
  | cons p ps ih =>
    intro m h x hx
    simp only [maxByLen] at h
    cases hps : maxByLen ps with
    | none =>
      simp only [hps] at h
      injection h with h
      subst h
      rcases List.mem_cons.mp hx with rfl | hx'
      · exact Nat.le_refl _
      · exact absurd hx' (by simp [maxByLen_eq_none hps])
    | some q =>
      simp only [hps] at h
      by_cases hlen : p.length > q.length
      · rw [if_pos hlen] at h
        injection h with h
        subst h
        rcases List.mem_cons.mp hx with rfl | hx'
        · exact Nat.le_refl _
        · exact Nat.le_of_lt (Nat.lt_of_le_of_lt (ih hps x hx') hlen)
      · rw [if_neg hlen] at h
        injection h with h
        subst h
        rcases List.mem_cons.mp hx with rfl | hx'
        · exact Nat.le_of_not_lt hlen
        · exact ih hps x hx'

/-- C8: `normalize_model_name` returns the longest known stem of the
provider that is a prefix of the client-supplied name, and passes the raw
name through when no known stem matches; in particular the Anthropic name
`claude-3-5-sonnet-20240620` normalizes to `claude-3-5-sonnet`. -/
theorem normalize_model_name_spec (provider : LanguageModelProvider)
    (name : String) :
    ((∀ p ∈ knownModelStems provider, strStartsWith name p = false) →
      normalize_model_name provider name = name) ∧
    (∀ p ∈ knownModelStems provider, strStartsWith name p = true →
      normalize_model_name provider name ∈ knownModelStems provider ∧
      strStartsWith name (normalize_model_name provider name) = true ∧
      ∀ q ∈ knownModelStems provider, strStartsWith name q = true →
        q.length ≤ (normalize_model_name provider name).length) ∧
    normalize_model_name .Anthropic "claude-3-5-sonnet-20240620" =
      "claude-3-5-sonnet" := by
  refine ⟨?_, ?_, by decide⟩
  · intro hnone
    have hfilter : (knownModelStems provider).filter
        (fun p => strStartsWith name p) = [] := by
      rw [List.filter_eq_nil_iff]
      intro a ha
      simp [hnone a ha]
    simp [normalize_model_name, hfilter, maxByLen]
  · intro p hp hpref
    have hmem : p ∈ (knownModelStems provider).filter
        (fun p => strStartsWith name p) :=
      List.mem_filter.mpr ⟨hp, hpref⟩
    cases hmax : maxByLen ((knownModelStems provider).filter
        (fun p => strStartsWith name p)) with
    | none =>
      rw [maxByLen_eq_none hmax] at hmem
      exact absurd hmem (List.not_mem_nil p)
    | some m =>
      have hm := List.mem_filter.mp (maxByLen_mem hmax)
      have hres : normalize_model_name provider name = m := by
        simp [normalize_model_name, hmax]
      refine ⟨hres ▸ hm.1, hres ▸ hm.2, ?_⟩
      intro q hq hqpref
      exact hres ▸ maxByLen_le hmax q (List.mem_filter.mpr ⟨hq, hqpref⟩)

/-- Witness for `normalize_model_name_spec` at the Anthropic example from
the spec. -/
theorem normalize_model_name_spec_witness :
    normalize_model_name .Anthropic "claude-3-5-sonnet-20240620" ∈
      knownModelStems .Anthropic ∧
    strStartsWith "claude-3-5-sonnet-20240620"
      (normalize_model_name .Anthropic "claude-3-5-sonnet-20240620") = true ∧
    ("claude-3-5-sonnet" : String).length ≤
      (normalize_model_name .Anthropic "claude-3-5-sonnet-20240620").length := by
  have h := (normalize_model_name_spec .Anthropic
      "claude-3-5-sonnet-20240620").2.1 "claude-3-5-sonnet"
      (by decide) (by decide)
  exact ⟨h.1, h.2.1, h.2.2 "claude-3-5-sonnet" (by decide) (by decide)⟩

/-- C1: for a non-staff request on a known model, `check_usage_limit`
admits exactly when every resource usage is at most its per-user limit
(the model cap divided, with integer division, by the matching active-user
divisor clamped to at least 1); a rejection is a 429 naming a resource
whose usage strictly exceeds its per-user limit. -/
theorem check_usage_limit_spec (db : LlmDb) (provider : LanguageModelProvider)
    (model_name : String) (claims : LlmTokenClaims) (model : ModelRateLimits)
    (usage : Usage) (active : ActiveUserCount)
    (hstaff : claims.is_staff = false)
    (hmodel : db.model provider model_name = .ok model)
    (husage : db.get_usage claims.user_id provider model_name = usage)
    (hactive : db.active_user_count = active) :
    (check_usage_limit db provider model_name claims = .ok () ↔
      usage.requests_this_minute ≤
        model.max_requests_per_minute / max active.users_in_recent_minutes 1 ∧
      usage.tokens_this_minute ≤
        model.max_tokens_per_minute / max active.users_in_recent_minutes 1 ∧
      usage.tokens_this_day ≤
        model.max_tokens_per_day / max active.users_in_recent_days 1) ∧
    (∀ e, check_usage_limit db provider model_name claims = .error e →
      e.status = 429 ∧
      ((e.message = "Rate limit exceeded. Maximum requests per minute reached." ∧
        usage.requests_this_minute >
          model.max_requests_per_minute / max active.users_in_recent_minutes 1) ∨
       (e.message = "Rate limit exceeded. Maximum tokens per minute reached." ∧
        usage.tokens_this_minute >
          model.max_tokens_per_minute / max active.users_in_recent_minutes 1) ∨
       (e.message = "Rate limit exceeded. Maximum tokens per day reached." ∧
        usage.tokens_this_day >
          model.max_tokens_per_day / max active.users_in_recent_days 1))) := by
  have hred : check_usage_limit db provider model_name claims =
      (if model.max_requests_per_minute / max active.users_in_recent_minutes 1 <
          usage.requests_this_minute then
        Except.error ⟨429,
          "Rate limit exceeded. Maximum requests per minute reached."⟩
      else if model.max_tokens_per_minute /
          max active.users_in_recent_minutes 1 < usage.tokens_this_minute then
        Except.error ⟨429,
          "Rate limit exceeded. Maximum tokens per minute reached."⟩
      else if model.max_tokens_per_day /
          max active.users_in_recent_days 1 < usage.tokens_this_day then
        Except.error ⟨429,
          "Rate limit exceeded. Maximum tokens per day reached."⟩
      else Except.ok ()) := by
    simp [check_usage_limit, hmodel, husage, hactive, hstaff, runUsageChecks]
  rw [hred]
  constructor
  · split_ifs with h1 h2 h3 <;> simp <;> try omega
  · intro e he
    split_ifs at he with h1 h2 h3
    · injection he with he
      subst he
      exact ⟨rfl, Or.inl ⟨rfl, h1⟩⟩
    · injection he with he
      subst he
      exact ⟨rfl, Or.inr (Or.inl ⟨rfl, h2⟩)⟩
    · injection he with he
      subst he
      exact ⟨rfl, Or.inr (Or.inr ⟨rfl, h3⟩)⟩

/-- Witness for `check_usage_limit_spec`: the spec's boundary example, a
global cap of 60 requests/minute with 4 recently active users gives a
per-user limit of 15, and a user already at 15 requests is admitted. -/
theorem check_usage_limit_spec_witness :
    check_usage_limit
      { model := fun _ _ => .ok ⟨60, 10000, 100000⟩,
        get_usage := fun _ _ _ => ⟨15, 0, 0⟩,
        active_user_count := ⟨4, 2⟩ }
      .Anthropic "claude-3-5-sonnet" ⟨1, false, .Free⟩ = .ok () := by
  exact (check_usage_limit_spec
      { model := fun _ _ => .ok ⟨60, 10000, 100000⟩,
        get_usage := fun _ _ _ => ⟨15, 0, 0⟩,
        active_user_count := ⟨4, 2⟩ }
      .Anthropic "claude-3-5-sonnet" ⟨1, false, .Free⟩
      ⟨60, 10000, 100000⟩ ⟨15, 0, 0⟩ ⟨4, 2⟩
      rfl rfl rfl rfl).1.mpr (by decide)

/-- C4: when the claims carry the staff flag, the quota comparisons in
`check_usage_limit` are all skipped, so a known model is always admitted
whatever the usage and the limits; accounting still occurs, since dropping
the `TokenCountingStream` spawns its (single) `record_usage` call
independently of the staff flag. -/
theorem staff_bypass_spec (db : LlmDb) (provider : LanguageModelProvider)
    (model_name : String) (claims : LlmTokenClaims) (model : ModelRateLimits)
    (hstaff : claims.is_staff = true)
    (hmodel : db.model provider model_name = .ok model) :
    check_usage_limit db provider model_name claims = .ok () ∧
    ∀ frames : List AdapterFrame,
      (TokenCountingStream.dropCalls
        (runStream (mkTokenCountingStream claims provider model_name)
          frames).1).length = 1 := by
  constructor
  · simp [check_usage_limit, hmodel, hstaff, runUsageChecks]
  · intro frames
    rfl

/-- Witness for `staff_bypass_spec`: a staff user far over every limit is
still admitted. -/
theorem staff_bypass_spec_witness :
    check_usage_limit
      { model := fun _ _ => .ok ⟨60, 10000, 100000⟩,
        get_usage := fun _ _ _ => ⟨1000000, 1000000, 1000000⟩,
        active_user_count := ⟨4, 2⟩ }
      .Anthropic "claude-3-5-sonnet" ⟨1, true, .ZedPro⟩ = .ok () :=
  (staff_bypass_spec
      { model := fun _ _ => .ok ⟨60, 10000, 100000⟩,
        get_usage := fun _ _ _ => ⟨1000000, 1000000, 1000000⟩,
        active_user_count := ⟨4, 2⟩ }
      .Anthropic "claude-3-5-sonnet" ⟨1, true, .ZedPro⟩
      ⟨60, 10000, 100000⟩ rfl rfl).1

/-- C9: `check_usage_limit` resolves the model before the staff bypass can
apply, so a staff request for a model unknown to the database still fails
with the lookup error. -/
theorem staff_unknown_model_spec (db : LlmDb)
    (provider : LanguageModelProvider) (model_name : String)
    (claims : LlmTokenClaims) (e : HttpError)
    (hstaff : claims.is_staff = true)
    (hmodel : db.model provider model_name = .error e) :
    check_usage_limit db provider model_name claims = .error e := by
  simp [check_usage_limit, hmodel]

/-- Witness for `staff_unknown_model_spec`: a staff user asking for a model
the database does not know is rejected with the lookup error. -/
theorem staff_unknown_model_spec_witness :
    check_usage_limit
      { model := fun _ _ => .error ⟨404, "unknown model"⟩,
        get_usage := fun _ _ _ => ⟨0, 0, 0⟩,
        active_user_count := ⟨1, 1⟩ }
      .Anthropic "no-such-model" ⟨1, true, .ZedPro⟩ =
      .error ⟨404, "unknown model"⟩ :=
  staff_unknown_model_spec
    { model := fun _ _ => .error ⟨404, "unknown model"⟩,
      get_usage := fun _ _ _ => ⟨0, 0, 0⟩,
      active_user_count := ⟨1, 1⟩ }
    .Anthropic "no-such-model" ⟨1, true, .ZedPro⟩ ⟨404, "unknown model"⟩
    rfl rfl

theorem runStream_fst (fs : List AdapterFrame) :
    ∀ s : TokenCountingStream, (runStream s fs).1 =
      { s with input_tokens := s.input_tokens + sumInputDeltas fs,
               output_tokens := s.output_tokens + sumOutputDeltas fs } := by
  induction fs with
  | nil => intro s; simp [runStream, sumInputDeltas, sumOutputDeltas]
  | cons f fs ih =>
    intro s
    cases f with
    | ok t =>
      obtain ⟨bytes, i, o⟩ := t
      simp [runStream, pollFrame, sumInputDeltas, sumOutputDeltas, ih,
        Nat.add_assoc]
    | error e =>
      simp [runStream, pollFrame, sumInputDeltas, sumOutputDeltas, ih]

/-- C2: however a completion terminates after consuming the first `k`
adapter frames (normal end of stream when `k` covers the whole stream,
client disconnect otherwise), dropping the stream spawns exactly one
`record_usage` call, whose input and output totals are the sums, in
frame-yield order, of the per-frame deltas observed up to termination. -/
theorem record_usage_exactly_once_spec (claims : LlmTokenClaims)
    (provider : LanguageModelProvider) (model : String)
    (adapterFrames : List AdapterFrame) (k : Nat) :
    TokenCountingStream.dropCalls
      (runStream (mkTokenCountingStream claims provider model)
        (adapterFrames.take k)).1 =
      [{ user_id := claims.user_id, provider := provider, model := model,
         input_tokens := sumInputDeltas (adapterFrames.take k),
         output_tokens := sumOutputDeltas (adapterFrames.take k) }] := by
  rw [runStream_fst]
  simp [TokenCountingStream.dropCalls, mkTokenCountingStream]

/-- C10: an `Err` frame from the upstream passes through `poll_next`
unchanged — no newline byte is appended and the accumulated totals do not
move — and in any run only `Ok` frames contribute to the totals. -/
theorem error_frame_passthrough_spec (s : TokenCountingStream) (e : String) :
    pollFrame s (.error e) = (s, .error e) ∧
    ∀ fs : List AdapterFrame,
      (runStream s fs).1.input_tokens = s.input_tokens + sumInputDeltas fs ∧
      (runStream s fs).1.output_tokens = s.output_tokens + sumOutputDeltas fs ∧
      sumInputDeltas (.error e :: fs) = sumInputDeltas fs ∧
      sumOutputDeltas (.error e :: fs) = sumOutputDeltas fs := by
  refine ⟨rfl, ?_⟩
  intro fs
  rw [runStream_fst]
  exact ⟨rfl, rfl, rfl, rfl⟩

theorem splitAtNewlines_ne_nil (l : List Nat) : splitAtNewlines l ≠ [] := by
  cases l with
  | nil => simp [splitAtNewlines]
  | cons b rest =>
    simp only [splitAtNewlines]
    by_cases hb : b = 10
    · simp [hb]
    · simp only [hb, if_false]
      cases h : splitAtNewlines rest <;> simp

theorem splitAtNewlines_append {a : List Nat} (ha : 10 ∉ a)
    (rest : List Nat) :
    splitAtNewlines (a ++ 10 :: rest) = a :: splitAtNewlines rest := by
  induction a with
  | nil => simp [splitAtNewlines]
  | cons b bs ih =>
    have hb : ¬b = 10 := fun h => ha (h ▸ List.mem_cons_self b bs)
    have hbs : 10 ∉ bs := fun h => ha (List.mem_cons_of_mem b h)
    simp only [List.cons_append, splitAtNewlines, hb, if_false,
      List.append_eq, ih hbs]

theorem splitAtNewlines_flatten (chunks : List (List Nat))
    (h : ∀ c ∈ chunks, 10 ∉ c) :
    splitAtNewlines ((chunks.map (fun c => c ++ [10])).flatten) =
      chunks ++ [[]] := by
  induction chunks with
  | nil => simp [splitAtNewlines]
  | cons c cs ih =>
    have hc : 10 ∉ c := h c (List.mem_cons_self c cs)
    have hcs : ∀ x ∈ cs, 10 ∉ x := fun x hx => h x (List.mem_cons_of_mem c hx)
    simp only [List.map_cons, List.flatten_cons, List.append_assoc,
      List.singleton_append]
    rw [splitAtNewlines_append hc, ih hcs]
    rfl

theorem wireLines_flatten (chunks : List (List Nat))
    (h : ∀ c ∈ chunks, 10 ∉ c) :
    wireLines ((chunks.map (fun c => c ++ [10])).flatten) = chunks := by
  rw [wireLines, splitAtNewlines_flatten chunks h]
  simp [List.getLast?_concat, List.dropLast_concat]

theorem runStream_outputs_ok (chunks : List (List Nat × Nat × Nat)) :
    ∀ s : TokenCountingStream,
      (runStream s (chunks.map (fun c => .ok c))).2 =
        chunks.map (fun c => .ok (c.1 ++ [10])) := by
  induction chunks with
  | nil => intro s; rfl
  | cons c cs ih =>
    intro s
    obtain ⟨bytes, i, o⟩ := c
    simp [runStream, pollFrame, ih]

/-- The bytes of a successfully forwarded body item. -/
def okBytes : Except String (List Nat) → List Nat
  | .ok b => b
  | .error _ => []

/-- C6: when every upstream event arrives as an `Ok` frame, the items
forwarded to the client are exactly the serialized chunks each followed by
one newline byte, in upstream order; hence concatenating the forwarded body
bytes and splitting at the newline byte recovers exactly the sequence of
the upstream events' serializations (serialized JSON contains no raw
newline byte, which the hypothesis records). -/
theorem frame_forwarding_spec (claims : LlmTokenClaims)
    (provider : LanguageModelProvider) (model : String)
    (chunks : List (List Nat × Nat × Nat))
    (hnl : ∀ c ∈ chunks, 10 ∉ c.1) :
    (runStream (mkTokenCountingStream claims provider model)
        (chunks.map (fun c => .ok c))).2 =
      chunks.map (fun c => .ok (c.1 ++ [10])) ∧
    wireLines (((runStream (mkTokenCountingStream claims provider model)
        (chunks.map (fun c => .ok c))).2.map okBytes).flatten) =
      chunks.map (fun c => c.1) := by
  have h1 := runStream_outputs_ok chunks (mkTokenCountingStream claims provider model)
  refine ⟨h1, ?_⟩
  rw [h1]
  have h2 : (chunks.map (fun c => Except.ok (c.1 ++ [10]))).map okBytes =
      (chunks.map (fun c => c.1)).map (fun c => c ++ [10]) := by
    simp [okBytes, List.map_map]
  rw [h2]
  refine wireLines_flatten (chunks.map (fun c => c.1)) ?_
  intro c hc
  obtain ⟨d, hd, rfl⟩ := List.mem_map.mp hc
  exact hnl d hd

/-- Witness for `frame_forwarding_spec` on two concrete upstream chunks. -/
theorem frame_forwarding_spec_witness :
    (runStream (mkTokenCountingStream ⟨1, false, Plan.Free⟩ .Anthropic "m")
        (([([72, 105], 1, 2), ([33], 0, 3)] :
          List (List Nat × Nat × Nat)).map (fun c => .ok c))).2 =
      ([([72, 105], 1, 2), ([33], 0, 3)] :
        List (List Nat × Nat × Nat)).map (fun c => .ok (c.1 ++ [10])) ∧
    wireLines (((runStream
        (mkTokenCountingStream ⟨1, false, Plan.Free⟩ .Anthropic "m")
        (([([72, 105], 1, 2), ([33], 0, 3)] :
          List (List Nat × Nat × Nat)).map (fun c => .ok c))).2.map
        okBytes).flatten) =
      ([([72, 105], 1, 2), ([33], 0, 3)] :
        List (List Nat × Nat × Nat)).map (fun c => c.1) :=
  frame_forwarding_spec ⟨1, false, Plan.Free⟩ .Anthropic "m"
    [([72, 105], 1, 2), ([33], 0, 3)] (by decide)

/-- C5: the token-validation middleware answers 400 when the Authorization
header is missing or does not begin with Bearer and a space; answers 401
with the expired-token header exactly when validation fails with `Expired`;
answers 401 without that header on every other validation failure; and
passes a request on to the handler exactly when its token validates. -/
theorem validate_api_token_spec
    (validate : String → Except ValidateLlmTokenError LlmTokenClaims) :
    validate_api_token validate none =
      .reject 400 "missing authorization header" [] ∧
    (∀ h : String, strStartsWith h "Bearer " = false →
      validate_api_token validate (some h) =
        .reject 400 "invalid authorization header" []) ∧
    (∀ h : String, strStartsWith h "Bearer " = true →
      ((validate_api_token validate (some h) =
          .reject 401 "unauthorized"
            [(EXPIRED_LLM_TOKEN_HEADER_NAME, "true")]) ↔
        validate (strDropChars h "Bearer ".length) = .error .Expired) ∧
      (∀ r, validate (strDropChars h "Bearer ".length) =
          .error (.Invalid r) →
        validate_api_token validate (some h) = .reject 401 "unauthorized" []) ∧
      (∀ c, validate_api_token validate (some h) = .proceed c ↔
        validate (strDropChars h "Bearer ".length) = .ok c)) := by
  refine ⟨rfl, ?_, ?_⟩
  · intro h hh
    simp [validate_api_token, hh]
  · intro h hh
    cases hv : validate (strDropChars h "Bearer ".length) with
    | ok c0 =>
      refine ⟨?_, ?_, ?_⟩ <;> simp [validate_api_token, hh, hv,
        EXPIRED_LLM_TOKEN_HEADER_NAME]
    | error err =>
      cases err with
      | Expired =>
        refine ⟨?_, ?_, ?_⟩ <;> simp [validate_api_token, hh, hv]
      | Invalid r0 =>
        refine ⟨?_, ?_, ?_⟩ <;> simp [validate_api_token, hh, hv]

/-- Witness for `validate_api_token_spec`: a well-formed Bearer header whose
token is expired gets the 401 with the expired-token header. -/
theorem validate_api_token_spec_witness :
    validate_api_token
      (fun t => if t = "fresh" then .ok ⟨7, false, Plan.Free⟩
        else if t = "stale" then .error .Expired
        else .error (.Invalid "bad"))
      (some "Bearer stale") =
      .reject 401 "unauthorized" [(EXPIRED_LLM_TOKEN_HEADER_NAME, "true")] :=
  ((validate_api_token_spec
      (fun t => if t = "fresh" then .ok ⟨7, false, Plan.Free⟩
        else if t = "stale" then .error .Expired
        else .error (.Invalid "bad"))).2.2
    "Bearer stale" (by decide)).1.mpr (by decide)

/-- C3 counterexample: the refresh trigger in `perform_llm_completion` is
not tied to status 401.  With a gateway that always answers 500 carrying
the expired-token header, the client still refreshes (once) and retries,
although no response was a 401. -/
theorem token_refresh_counterexample :
    (perform_llm_completion
      { acquired := "a", refreshed := "b",
        send := fun _ =>
          { status := 500, has_expired_header := true } }).refreshes = 1 ∧
    (perform_llm_completion
      { acquired := "a", refreshed := "b",
        send := fun _ =>
          { status := 500, has_expired_header := true } }).sent = ["a", "b"] ∧
    ({ status := 500, has_expired_header := true } :
      GatewayResponse).status ≠ 401 := by
  refine ⟨rfl, rfl, by decide⟩

/-- C3 (amended): the client refreshes and retries exactly once whenever a
non-success response carries the expired-token header — a 401 with the
header in particular — and sends the retry with the refreshed token; a
failing response without the header, and any failing response after the
one refresh, is surfaced as an error with no further retry. -/
theorem token_refresh_spec (env : ClientEnv) :
    (isSuccessStatus (env.send env.acquired).status = true →
      perform_llm_completion env =
        { result := .ok (env.send env.acquired), sent := [env.acquired],
          refreshes := 0 }) ∧
    (isSuccessStatus (env.send env.acquired).status = false →
      (env.send env.acquired).has_expired_header = false →
      perform_llm_completion env =
        { result := .error (env.send env.acquired).status,
          sent := [env.acquired], refreshes := 0 }) ∧
    (isSuccessStatus (env.send env.acquired).status = false →
      (env.send env.acquired).has_expired_header = true →
      (perform_llm_completion env).refreshes = 1 ∧
      (perform_llm_completion env).sent = [env.acquired, env.refreshed] ∧
      (isSuccessStatus (env.send env.refreshed).status = true →
        (perform_llm_completion env).result = .ok (env.send env.refreshed)) ∧
      (isSuccessStatus (env.send env.refreshed).status = false →
        (perform_llm_completion env).result =
          .error (env.send env.refreshed).status)) := by
  refine ⟨?_, ?_, ?_⟩
  · intro h1
    simp [perform_llm_completion, completionAttempts, h1]
  · intro h1 h2
    simp [perform_llm_completion, completionAttempts, h1, h2]
  · intro h1 h2
    refine ⟨?_, ?_, ?_, ?_⟩
    · cases hs : isSuccessStatus (env.send env.refreshed).status <;>
        simp [perform_llm_completion, completionAttempts, retriedAttempt,
          h1, h2, hs]
    · cases hs : isSuccessStatus (env.send env.refreshed).status <;>
        simp [perform_llm_completion, completionAttempts, retriedAttempt,
          h1, h2, hs]
    · intro hs
      simp [perform_llm_completion, completionAttempts, retriedAttempt,
        h1, h2, hs]
    · intro hs
      simp [perform_llm_completion, completionAttempts, retriedAttempt,
        h1, h2, hs]

/-- Witness for `token_refresh_spec`: first response 401 with the
expired-token header, retry succeeds with the refreshed token. -/
theorem token_refresh_spec_witness :
    (perform_llm_completion
      { acquired := "a", refreshed := "b",
        send := fun t => if t = "a" then ⟨401, true⟩
          else ⟨200, false⟩ }).refreshes = 1 ∧
    (perform_llm_completion
      { acquired := "a", refreshed := "b",
        send := fun t => if t = "a" then ⟨401, true⟩
          else ⟨200, false⟩ }).sent = ["a", "b"] ∧
    (perform_llm_completion
      { acquired := "a", refreshed := "b",
        send := fun t => if t = "a" then ⟨401, true⟩
          else ⟨200, false⟩ }).result =
      .ok (ClientEnv.send
        { acquired := "a", refreshed := "b",
          send := fun t => if t = "a" then ⟨401, true⟩
            else ⟨200, false⟩ } "b") := by
  have h := (token_refresh_spec
    { acquired := "a", refreshed := "b",
      send := fun t => if t = "a" then ⟨401, true⟩
        else ⟨200, false⟩ }).2.2 (by decide) (by decide)
  exact ⟨h.1, h.2.1, h.2.2.1 (by decide)⟩

/-- C7 counterexample: the write path of `get_active_user_count` recomputes
without re-checking freshness, so two concurrent callers that both saw a
stale snapshot (age 100 s ≥ the 30 s TTL) each recompute after queueing on
the write lock: one schedule yields two recomputations at the same instant,
inside a single 30-second window. -/
theorem active_user_count_cache_counterexample :
    (runCacheSched ⟨5, 7⟩ 100 100 (initCacheRun (some (0, ⟨1, 1⟩)))
      [.readCheck true, .readCheck false, .writeRecompute true,
       .writeRecompute false]).recomputeTimes = [100, 100] ∧
    ¬(100 - 0 < ACTIVE_USER_COUNT_CACHE_DURATION) := by
  exact ⟨rfl, by decide⟩

/-- How many recomputations a caller at this position can still perform. -/
def pcPotential : CachePc → Nat
  | .finished => 0
  | _ => 1

/-- Number of recomputations performed so far plus the recomputations the
two callers can still perform. -/
def cacheMeasure (st : CacheRun) : Nat :=
  st.recomputeTimes.length + pcPotential st.pc1 + pcPotential st.pc2

theorem pcPotential_le_one (pc : CachePc) : pcPotential pc ≤ 1 := by
  cases pc <;> simp [pcPotential]

theorem cacheStep_measure_le (dbCount : ActiveUserCount) (now1 now2 : Nat)
    (st : CacheRun) (step : CacheStep) :
    cacheMeasure (cacheStep dbCount now1 now2 st step) ≤ cacheMeasure st := by
  have hidle : pcPotential CachePc.idle = 1 := rfl
  cases step with
  | readCheck firstTask =>
    cases firstTask
    · cases hpc : st.pc2 with
      | idle =>
        have h := pcPotential_le_one (readCheckPc now2 st.cache)
        simp only [cacheStep, hpc, cacheMeasure]
        omega
      | wantWrite => simp [cacheStep, hpc, cacheMeasure]
      | finished => simp [cacheStep, hpc, cacheMeasure]
    · cases hpc : st.pc1 with
      | idle =>
        have h := pcPotential_le_one (readCheckPc now1 st.cache)
        simp only [cacheStep, hpc, cacheMeasure]
        omega
      | wantWrite => simp [cacheStep, hpc, cacheMeasure]
      | finished => simp [cacheStep, hpc, cacheMeasure]
  | writeRecompute firstTask =>
    cases firstTask
    · cases hpc : st.pc2 with
      | idle => simp [cacheStep, hpc, cacheMeasure]
      | wantWrite =>
        simp [cacheStep, hpc, cacheMeasure, pcPotential]
        try omega
      | finished => simp [cacheStep, hpc, cacheMeasure]
    · cases hpc : st.pc1 with
      | idle => simp [cacheStep, hpc, cacheMeasure]
      | wantWrite =>
        simp [cacheStep, hpc, cacheMeasure, pcPotential]
        try omega
      | finished => simp [cacheStep, hpc, cacheMeasure]

theorem runCacheSched_measure_le (dbCount : ActiveUserCount)
    (now1 now2 : Nat) (sched : List CacheStep) :
    ∀ st : CacheRun,
      cacheMeasure (runCacheSched dbCount now1 now2 st sched) ≤
        cacheMeasure st := by
  induction sched with
  | nil => intro st; exact Nat.le_refl _
  | cons s ss ih =>
    intro st
    exact Nat.le_trans (ih (cacheStep dbCount now1 now2 st s))
      (cacheStep_measure_le dbCount now1 now2 st s)

/-- C7 (amended): a call that finds a snapshot younger than 30 seconds
returns it without consulting the database; a stale or absent snapshot
triggers a recomputation stored with timestamp `now`.  Under concurrency,
callers that saw a stale snapshot serialize on the write lock but each
recomputes — a two-caller run performs at most two recomputations, not at
most one. -/
theorem active_user_count_cache_spec (dbCount count : ActiveUserCount)
    (now last : Nat) :
    (now - last < ACTIVE_USER_COUNT_CACHE_DURATION →
      get_active_user_count dbCount now (some (last, count)) =
        (some (last, count), count, false)) ∧
    (¬(now - last < ACTIVE_USER_COUNT_CACHE_DURATION) →
      get_active_user_count dbCount now (some (last, count)) =
        (some (now, dbCount), dbCount, true)) ∧
    (get_active_user_count dbCount now none =
      (some (now, dbCount), dbCount, true)) ∧
    (∀ (now1 now2 : Nat) (cache0 : Option (Nat × ActiveUserCount))
        (sched : List CacheStep),
      ((runCacheSched dbCount now1 now2 (initCacheRun cache0)
        sched).recomputeTimes).length ≤ 2) := by
  refine ⟨?_, ?_, rfl, ?_⟩
  · intro h
    simp [get_active_user_count, h]
  · intro h
    simp [get_active_user_count, h]
  · intro now1 now2 cache0 sched
    have h := runCacheSched_measure_le dbCount now1 now2 sched
      (initCacheRun cache0)
    have hinit : cacheMeasure (initCacheRun cache0) = 2 := by
      simp [cacheMeasure, initCacheRun, pcPotential]
    rw [hinit] at h
    have hm : ∀ st : CacheRun, st.recomputeTimes.length ≤ cacheMeasure st := by
      intro st
      unfold cacheMeasure
      omega
    exact Nat.le_trans
      (hm (runCacheSched dbCount now1 now2 (initCacheRun cache0) sched)) h

/-- Witness for `active_user_count_cache_spec`: a stale snapshot (age
100 s) is recomputed and restamped; a fresh one (age 10 s) is returned
as-is. -/
theorem active_user_count_cache_spec_witness :
    get_active_user_count ⟨5, 7⟩ 100 (some (0, ⟨1, 1⟩)) =
      (some (100, ⟨5, 7⟩), ⟨5, 7⟩, true) ∧
    get_active_user_count ⟨5, 7⟩ 10 (some (0, ⟨1, 1⟩)) =
      (some (0, ⟨1, 1⟩), ⟨1, 1⟩, false) :=
  ⟨(active_user_count_cache_spec ⟨5, 7⟩ ⟨1, 1⟩ 100 0).2.1 (by decide),
   (active_user_count_cache_spec ⟨5, 7⟩ ⟨1, 1⟩ 10 0).1 (by decide)⟩
